import Mathlib

/-!
Verification of the menu subsystem of mpv-menu-plugin (`src/menu.c`).

Strings are modelled as `List Char` (the plugin manipulates byte strings
through mpv's `bstr` library; the UTF-8 to UTF-16 conversion `mp_from_utf8`
performed just before handing a title to the Win32 API is
character-preserving and is modelled as the identity).  Every definition in
this file is translated from `src/menu.c`, or — for the handful of `bstr`
helpers the plugin links from mpv's string library (`misc/bstr.h`, an
external collaborator of the repository) — from the documented behaviour of
that library function, which is stated in the doc comment.
-/

set_option autoImplicit false

namespace Menu

/-- Shorthand: the character list of a string literal. -/
def str (s : String) : List Char := s.data

/-- mpv `mp_isspace` / the `WHITESPACE` character set `" \f\n\r\t\v"`. -/
def isWS (c : Char) : Bool :=
  c = ' ' || c = '\x0c' || c = '\n' || c = '\r' || c = '\t' || c = '\x0b'

/-- mpv `bstr_split str sep rest`: skip the characters of `sep` at the front,
return the run up to the next `sep` character, and leave in `rest` the
remainder starting at that separator (inclusive).  `sep` is modelled as a
character predicate. -/
def bsplit (s : List Char) (sep : Char → Bool) : List Char × List Char :=
  let s1 := s.dropWhile sep
  (s1.takeWhile (fun c => !sep c), s1.dropWhile (fun c => !sep c))

/-- mpv `bstr_lstrip`: drop leading whitespace. -/
def lstrip (s : List Char) : List Char := s.dropWhile isWS

/-- mpv `bstr_rstrip`: drop trailing whitespace only. -/
def rstrip (s : List Char) : List Char := (s.reverse.dropWhile isWS).reverse

/-- mpv `bstr_strip`: drop leading then trailing whitespace. -/
def strip (s : List Char) : List Char := rstrip (lstrip s)

/-- mpv `bstr_strip_linebreaks`: remove one trailing `"\r\n"` or `"\n"`. -/
def strip_linebreaks (s : List Char) : List Char :=
  if (str "\r\n").isSuffixOf s then s.take (s.length - 2)
  else if (str "\n").isSuffixOf s then s.take (s.length - 1)
  else s

/-- mpv `bstr_eatstart0`: if `pre` is a prefix of `s`, return the remainder. -/
def eatstart (s pre : List Char) : Option (List Char) :=
  if pre.isPrefixOf s then some (s.drop pre.length) else none

/-- Decimal digits of `n` (most significant first); `fuel` bounds recursion
and any `fuel ≥ n` is sufficient. -/
def digits10 : Nat → Nat → List Char
  | 0, _ => []
  | _ + 1, 0 => []
  | fuel + 1, n + 1 => digits10 fuel ((n + 1) / 10) ++ [Char.ofNat (48 + (n + 1) % 10)]

/-- Decimal representation of a natural number (C `printf "%u"`). -/
def natStr (n : Nat) : List Char := if n = 0 then ['0'] else digits10 n n

/-- Decimal representation of an integer (C `printf "%d"`). -/
def intStr (i : Int) : List Char :=
  if i < 0 then '-' :: natStr i.natAbs else natStr i.natAbs

/-- Pad a digit string with leading zeros to width `w` (C `"%02d"` etc.). -/
def padZ (w : Nat) (s : List Char) : List Char :=
  List.replicate (w - s.length) '0' ++ s

/-- One iteration state of the `escape_title` loop of `menu.c`: the already
split-off piece `left` and the unprocessed remainder `rest` (which, coming
out of `bstr_split`, is empty or starts with `'&'`).  `fuel` bounds the
number of loop iterations; `rest.length` iterations always suffice because
every iteration shortens `rest`. -/
def escAux : Nat → List Char → List Char → List Char
  | 0, left, _ => left
  | fuel + 1, left, rest =>
    if rest.length = 0 then left
    else
      let (l2, r2) := bsplit rest (fun c => c = '&')
      left ++ str "&&" ++ escAux fuel l2 r2

/-- `escape_title` of `menu.c`: escape `&` to `&&` for a menu title, by
repeated `bstr_split` on `"&"` exactly as the C loop does. -/
def escape_title (title : List Char) : List Char :=
  let (left, rest) := bsplit title (fun c => c = '&')
  escAux title.length left rest

/-- `format_title` of `menu.c`: `name\tkey`, the key part omitted when empty
or the placeholder `"_"`, then escaped. -/
def format_title (name key : List Char) : List Char :=
  let title := if key.length > 0 && key ≠ str "_" then name ++ '\t' :: key else name
  escape_title title

/-! ## Host state snapshots

The record shapes are those read by `menu.c` through the `mp_state`
accessors (`state->track_list`, `state->vid`, …); a `NULL` list pointer is
`none` and a `NULL` C string field is the empty list.  A chapter time is the
C `double` value, modelled as an exact rational. -/

structure mp_track_item where
  id : Int
  type : List Char
  title : List Char
  lang : List Char
  selected : Bool
deriving DecidableEq, Repr

structure mp_chapter_item where
  title : List Char
  time : ℚ
deriving DecidableEq, Repr

structure mp_edition_item where
  id : Int
  title : List Char
deriving DecidableEq, Repr

structure mp_audio_device where
  name : List Char
  desc : List Char
deriving DecidableEq, Repr

structure mp_state where
  track_list : Option (List mp_track_item)
  vid : Int
  aid : Int
  sid : Int
  sid2 : Int
  chapter_list : Option (List mp_chapter_item)
  chapter : Int
  edition_list : Option (List mp_edition_item)
  edition : Int
  audio_device_list : Option (List mp_audio_device)
  audio_device : List Char
deriving DecidableEq, Repr

/-- One row of a dynamic submenu, as created by the `append_menu` calls in
the update functions of `menu.c` (string with `MIIM_DATA`; the row's
`wID` is assigned but never used by the plugin and is not modelled). -/
structure Row where
  title : List Char
  checked : Bool
  disabled : Bool
  data : Option (List Char)
deriving DecidableEq, Repr

/-- C cast `(int)` of a `double`, on the rational model: truncation toward
zero.  `den` is positive, so truncated division of `num` by `den`. -/
def ctrunc (q : ℚ) : Int := Int.tdiv q.num (q.den : Int)

/-- C `a / b` on `int` for a positive constant `b`: truncation toward zero. -/
def cdiv (a : Int) (b : Nat) : Int := Int.tdiv a (b : Int)

/-- C `a % b` on `int` for a positive constant `b`. -/
def cmod (a : Int) (b : Nat) : Int := Int.tmod a (b : Int)

/-- C `printf "%02d"`: decimal, zero-padded to width 2. -/
def fmt02 (i : Int) : List Char := padZ 2 (intStr i)

/-- The chapter time tag `"[%02d:%02d:%02d]"` computed in
`update_chapter_menu` from `(int)entry->time`. -/
def time_tag (t : ℚ) : List Char :=
  let s := ctrunc t
  '[' :: fmt02 (cdiv s 3600) ++ ':' :: fmt02 (cmod (cdiv s 60) 60)
    ++ ':' :: fmt02 (cmod s 60) ++ [']']

/-- C `printf "%f"` (default precision 6) on the rational model of the
`double` argument.  Exact for every value whose microsecond multiple is an
integer (all values appearing in this development); the round-to-nearest
step of `%f` on longer fractions is not modelled. -/
def fmt_f6 (t : ℚ) : List Char :=
  let n : Nat := (t.num.natAbs * 1000000) / t.den
  let sign : List Char := if t.num < 0 then ['-'] else []
  sign ++ natStr (n / 1000000) ++ '.' :: padZ 6 (natStr (n % 1000000))

/-- Win32 `CheckMenuRadioItem(hmenu, first, last, pos, MF_BYPOSITION)`:
the row at position `pos` becomes checked, every other row at a position
inside `[first, last]` becomes unchecked; a `pos` beyond the row count
checks nothing.  `i` is the position of the head of the remaining list. -/
def check_radio_aux (first last pos : Nat) : Nat → List Row → List Row
  | _, [] => []
  | i, r :: rs =>
    (if i = pos then { r with checked := true }
     else if first ≤ i && i ≤ last then { r with checked := false }
     else r) :: check_radio_aux first last pos (i + 1) rs

/-- Radio-mark position `pos` within `rows`, clearing range `[first, last]`. -/
def check_radio (rows : List Row) (first last pos : Nat) : List Row :=
  check_radio_aux first last pos 0 rows

/-- The row built for one track entry in the loop of `update_track_menu`:
title `format_title(title, lang)`, checked iff selected, additionally
disabled for a selected subtitle entry that is not the current `pos`,
command `"set <prop> <id>"`. -/
def track_row (type prop : List Char) (pos : Int) (e : mp_track_item) : Row :=
  { title := format_title e.title e.lang
    checked := e.selected
    disabled := (type = str "sub") && e.selected && pos ≠ e.id
    data := some (str "set " ++ prop ++ ' ' :: intStr e.id) }

/-- `update_track_menu` of `menu.c`: appends one row per track entry of the
requested `type`, then — iff at least one row was appended — a trailing
`"Off"` row checked when `pos < 0`, bound to `"set <prop> no"`. -/
def update_track_menu (st : mp_state) (type prop : List Char) (pos : Int)
    (rows : List Row) : List Row :=
  match st.track_list with
  | none => rows
  | some list =>
    if list.length = 0 then rows
    else
      let count := rows.length
      let rows := rows ++ (list.filter (fun e => e.type = type)).map (track_row type prop pos)
      if rows.length > count then
        rows ++ [{ title := escape_title (str "Off")
                   checked := pos < 0
                   disabled := false
                   data := some (str "set " ++ prop ++ str " no") }]
      else rows

/-- `update_video_track_menu` of `menu.c`. -/
def update_video_track_menu (st : mp_state) (rows : List Row) : List Row :=
  update_track_menu st (str "video") (str "vid") st.vid rows

/-- `update_audio_track_menu` of `menu.c`. -/
def update_audio_track_menu (st : mp_state) (rows : List Row) : List Row :=
  update_track_menu st (str "audio") (str "aid") st.aid rows

/-- `update_sub_track_menu` of `menu.c`. -/
def update_sub_track_menu (st : mp_state) (rows : List Row) : List Row :=
  update_track_menu st (str "sub") (str "sid") st.sid rows

/-- `update_sub_track_menu2` of `menu.c`. -/
def update_sub_track_menu2 (st : mp_state) (rows : List Row) : List Row :=
  update_track_menu st (str "sub") (str "secondary-sid") st.sid2 rows

/-- The row built for one chapter entry in `update_chapter_menu`: title
`format_title(title, "[HH:MM:SS]")`, command `"seek <time> absolute"`. -/
def chapter_row (e : mp_chapter_item) : Row :=
  { title := format_title e.title (time_tag e.time)
    checked := false
    disabled := false
    data := some (str "seek " ++ fmt_f6 e.time ++ str " absolute") }

/-- `update_chapter_menu` of `menu.c`: one row per chapter; when the current
chapter index is non-negative it is radio-marked by position over range
`[0, num_entries]`. -/
def update_chapter_menu (st : mp_state) (rows : List Row) : List Row :=
  match st.chapter_list with
  | none => rows
  | some list =>
    if list.length = 0 then rows
    else
      let rows := rows ++ list.map chapter_row
      if 0 ≤ st.chapter then check_radio rows 0 list.length st.chapter.toNat
      else rows

/-- The `pos` scan shared by `update_edition_menu` and
`update_audio_device_menu`: the loop `if (match) pos = i;` keeps the last
matching index, `-1` when none matches.  `i` is the index of the head. -/
def last_match_aux {α : Type} (p : α → Bool) : Nat → Int → List α → Int
  | _, acc, [] => acc
  | i, acc, e :: es => last_match_aux p (i + 1) (if p e then (i : Int) else acc) es

/-- Index of the last element satisfying `p`, or `-1`. -/
def last_match {α : Type} (p : α → Bool) (l : List α) : Int :=
  last_match_aux p 0 (-1) l

/-- The row built for one edition entry in `update_edition_menu`: escaped
title, command `"set edition <id>"`. -/
def edition_row (e : mp_edition_item) : Row :=
  { title := escape_title e.title
    checked := false
    disabled := false
    data := some (str "set edition " ++ intStr e.id) }

/-- `update_edition_menu` of `menu.c`: one row per edition; the last entry
whose id equals the current edition id is radio-marked by position. -/
def update_edition_menu (st : mp_state) (rows : List Row) : List Row :=
  match st.edition_list with
  | none => rows
  | some list =>
    if list.length = 0 then rows
    else
      let pos := last_match (fun e => e.id = st.edition) list
      let rows := rows ++ list.map edition_row
      if 0 ≤ pos then check_radio rows 0 list.length pos.toNat
      else rows

/-- The row built for one device entry in `update_audio_device_menu`:
escaped description (the raw name when the description is empty), command
`"set audio-device <name>"`. -/
def audio_device_row (e : mp_audio_device) : Row :=
  { title := escape_title (if e.desc.length = 0 then e.name else e.desc)
    checked := false
    disabled := false
    data := some (str "set audio-device " ++ e.name) }

/-- `update_audio_device_menu` of `menu.c`: one row per device; the last
entry whose name equals the current device name is radio-marked by
position. -/
def update_audio_device_menu (st : mp_state) (rows : List Row) : List Row :=
  match st.audio_device_list with
  | none => rows
  | some list =>
    if list.length = 0 then rows
    else
      let pos := last_match (fun e => e.name = st.audio_device) list
      let rows := rows ++ list.map audio_device_row
      if 0 ≤ pos then check_radio rows 0 list.length pos.toNat
      else rows

/-- The seven dynamic-menu providers of `dyn_providers` in `menu.c`,
as an enumeration of the bound update functions. -/
inductive Provider where
  | video_track
  | audio_track
  | sub_track
  | sub_track2
  | chapters
  | editions
  | audio_devices
deriving DecidableEq, Repr

/-- Dispatch of a provider's update function (`item->update`). -/
def runProvider (p : Provider) (st : mp_state) (rows : List Row) : List Row :=
  match p with
  | .video_track => update_video_track_menu st rows
  | .audio_track => update_audio_track_menu st rows
  | .sub_track => update_sub_track_menu st rows
  | .sub_track2 => update_sub_track_menu2 st rows
  | .chapters => update_chapter_menu st rows
  | .editions => update_edition_menu st rows
  | .audio_devices => update_audio_device_menu st rows

/-- The `dyn_providers` table of `menu.c`: keyword to update function. -/
def dyn_providers : List (List Char × Provider) :=
  [ (str "tracks/video", .video_track)
  , (str "tracks/audio", .audio_track)
  , (str "tracks/sub", .sub_track)
  , (str "tracks/sub-secondary", .sub_track2)
  , (str "chapters", .chapters)
  , (str "editions", .editions)
  , (str "audio-devices", .audio_devices) ]

/-- One entry of the Dynamic Menu Registry (`dyn_entry`): the parent item's
command id and the bound update function.  The submenu handle is carried at
rebuild time as the row list of a `DynSlot`. -/
structure RegSlot where
  id : Nat
  provider : Provider
deriving DecidableEq, Repr

/-- The provider loop of `add_dyn_menu`: `continue` on a keyword mismatch,
append a registry entry and return `true` on the first match, `false` when
the table is exhausted. -/
def add_dyn_menu_loop (reg : List RegSlot) (id : Nat) (keyword : List Char) :
    List (List Char × Provider) → List RegSlot × Bool
  | [] => (reg, false)
  | pr :: prs =>
    if keyword = pr.1 then (reg ++ [{ id := id, provider := pr.2 }], true)
    else add_dyn_menu_loop reg id keyword prs

/-- `add_dyn_menu` of `menu.c`. -/
def add_dyn_menu (reg : List RegSlot) (id : Nat) (keyword : List Char) :
    List RegSlot × Bool :=
  add_dyn_menu_loop reg id keyword dyn_providers

/-- A registered dynamic slot at rebuild time: its submenu's current rows,
its update function, and the enabled state of its parent item (toggled by
`EnableMenuItem` on `item->id` in `dyn_menu_update`). -/
structure DynSlot where
  provider : Provider
  rows : List Row
  enabled : Bool
deriving DecidableEq, Repr

/-- The clear loop of `dyn_menu_update`:
`while (GetMenuItemCount(...) > 0) RemoveMenu(..., 0, MF_BYPOSITION)`. -/
def remove_all_rows : List Row → List Row
  | [] => []
  | _ :: rs => remove_all_rows rs

/-- The per-entry body of `dyn_menu_update` in `menu.c`: clear the submenu,
rebuild it with the bound update function, then enable the parent item iff
the submenu now has at least one row. -/
def dyn_entry_update (st : mp_state) (s : DynSlot) : DynSlot :=
  let cleared := remove_all_rows s.rows
  let rows := runProvider s.provider st cleared
  { provider := s.provider, rows := rows, enabled := decide (0 < rows.length) }

/-- `dyn_menu_update` of `menu.c`: rebuild every registered slot in
registration order. -/
def dyn_menu_update (st : mp_state) (slots : List DynSlot) : List DynSlot :=
  slots.map (dyn_entry_update st)

/-! ## Parse-time menu construction

`append_menu` inserts a `MENUITEMINFOW` whose `wID` is always drawn from the
static counter `id` seeded at `WM_USER + 100` (`0x400 + 100 = 1124`), the
other fields as its mask selects.  `PItem` records the inserted item;
besides building the menu tree, every insertion is logged in creation order
in `PState.log`, a flat view of all `append_menu` calls that lets theorems
quantify over every created item regardless of nesting depth. -/

/-- The seed of the static id counter of `append_menu`: `WM_USER + 100`. -/
def idBase : Nat := 1124

/-- One inserted menu item: its `wID`, whether it is an `MFT_SEPARATOR`,
its title (`MIIM_STRING`), whether a submenu was attached (`MIIM_SUBMENU`),
its command string (`MIIM_DATA`) and whether `EnableMenuItem` grayed it. -/
structure PItem where
  wID : Nat
  isSep : Bool
  title : Option (List Char)
  hasSub : Bool
  data : Option (List Char)
  grayed : Bool
deriving DecidableEq, Repr

/-- A host menu: inserted items in display order, submenu items carrying
their children. -/
inductive MTree where
  | item : PItem → MTree
  | sub : PItem → List MTree → MTree

/-- Parser-global state: the `append_menu` id counter, the Dynamic Menu
Registry, and the creation log of all inserted items. -/
structure PState where
  ctr : Nat
  reg : List RegSlot
  log : List PItem

/-- `append_menu` of `menu.c` without a submenu: assign the next id and
insert at the end. -/
def append_menu_item (st : PState) (isSep : Bool) (title : Option (List Char))
    (data : Option (List Char)) : PState × PItem :=
  let it : PItem :=
    { wID := st.ctr, isSep := isSep, title := title, hasSub := false
      data := data, grayed := false }
  ({ st with ctr := st.ctr + 1, log := st.log ++ [it] }, it)

/-- `append_menu` of `menu.c` with `MIIM_SUBMENU`. -/
def append_menu_sub (st : PState) (title : List Char) : PState × PItem :=
  let it : PItem :=
    { wID := st.ctr, isSep := false, title := some title, hasSub := true
      data := none, grayed := false }
  ({ st with ctr := st.ctr + 1, log := st.log ++ [it] }, it)

/-- `append_seprator` of `menu.c` (the source spells it so): a separator
item, no string, no data — but, like every `append_menu` call, with
`MIIM_ID` set and the next counter value as its `wID`. -/
def append_seprator (st : PState) (menu : List MTree) : PState × List MTree :=
  let (st, it) := append_menu_item st true none none
  (st, menu ++ [.item it])

/-- `find_submenu` of `menu.c`: scan the direct children for an item that
has a non-empty title equal to `name` and carries a submenu; return its
position and `wID`. -/
def find_submenu : List MTree → List Char → Nat → Option (Nat × Nat)
  | [], _, _ => none
  | .item _ :: ts, name, i => find_submenu ts name (i + 1)
  | .sub it _ :: ts, name, i =>
    match it.title with
    | some t => if t.length ≠ 0 && t = name then some (i, it.wID)
                else find_submenu ts name (i + 1)
    | none => find_submenu ts name (i + 1)

/-- `append_submenu` of `menu.c`: reuse the submenu found by title, else
create an empty one.  Returns the updated state and menu, the position of
the submenu item, and its `wID`. -/
def append_submenu (st : PState) (menu : List MTree) (title : List Char) :
    PState × List MTree × Nat × Nat :=
  match find_submenu menu title 0 with
  | some (i, id) => (st, menu, i, id)
  | none =>
    let (st, it) := append_menu_sub st title
    (st, menu ++ [.sub it []], menu.length, it.wID)

/-- Replace the children of the submenu item at position `i`. -/
def set_children : List MTree → Nat → List MTree → List MTree
  | [], _, _ => []
  | t :: ts, 0, ch =>
    (match t with
     | .sub it _ => .sub it ch
     | t => t) :: ts
  | t :: ts, i + 1, ch => t :: set_children ts i ch

/-- The children of the submenu item at position `i` (empty otherwise). -/
def get_children (menu : List MTree) (i : Nat) : List MTree :=
  match menu[i]? with
  | some (.sub _ ch) => ch
  | _ => []

/-- Mark the top-level item with command id `id` grayed
(`EnableMenuItem(hmenu, id, MF_BYCOMMAND | MF_GRAYED)` as issued by
`parse_menu` on the item it has just inserted). -/
def gray_item (menu : List MTree) (id : Nat) : List MTree :=
  menu.map (fun t =>
    match t with
    | .item it => if it.wID = id then .item { it with grayed := true } else .item it
    | t => t)

/-- `is_seprarator` of `menu.c` (source spelling): a literal `"-"`, or in
uosc compatibility mode a name starting with `"---"`. -/
def is_seprarator (text : List Char) (uosc : Bool) : Bool :=
  text = str "-" || (uosc && (str "---").isPrefixOf text)

/-- `parse_menu` of `menu.c`.  `fuel` bounds the recursion depth along the
`>`-separated path; each recursive call strictly shortens `text`, so any
`fuel > text.length` makes the model total without changing its value
(callers pass `text.length + 1`). -/
def parse_menu (fuel : Nat) (uosc : Bool) (key cmd : List Char) (st : PState)
    (menu : List MTree) (text : List Char) : PState × List MTree :=
  match fuel with
  | 0 => (st, menu)
  | fuel + 1 =>
    let (name0, rest) := bsplit text (fun c => c = '>')
    let (name1, comment) := bsplit name0 (fun c => c = '#')
    let name := strip name1
    if name.length = 0 then (st, menu)
    else if rest.length = 0 then
      if is_seprarator name uosc then append_seprator st menu
      else
        match eatstart comment (str "#@") with
        | some comment1 =>
          let (st, menu, _, id) := append_submenu st menu (escape_title name)
          if 0 < id && 0 < comment1.length then
            let keyword := rstrip (bsplit comment1 (fun c => c = '#')).1
            ({ st with reg := (add_dyn_menu st.reg id keyword).1 }, menu)
          else (st, menu)
        | none =>
          let (st, it) := append_menu_item st false
            (some (format_title name key)) (some cmd)
          let menu := menu ++ [.item it]
          if 0 < it.wID && (cmd.length = 0 || (str "#").isPrefixOf cmd) then
            (st, gray_item menu it.wID)
          else (st, menu)
    else
      let (st, menu, i, _) := append_submenu st menu (escape_title name)
      if comment.length = 0 then
        let (st, ch) := parse_menu fuel uosc key cmd st (get_children menu i) rest
        (st, set_children menu i ch)
      else (st, menu)

/-- `bstr_split_tok`-based search inside `split_menu`: find the first
occurrence of `tok` in the scanned suffix, returning the part before it
(prefix accumulated reversed in `pre`) and the part after it. -/
def split_tok_go (tok pre : List Char) : List Char → Option (List Char × List Char)
  | [] => none
  | c :: cs =>
    if tok.isPrefixOf (c :: cs) then some (pre.reverse, (c :: cs).drop tok.length)
    else split_tok_go tok (c :: pre) cs

/-- `split_menu` of `menu.c`: split the command on `"#menu:"` — or, in uosc
compatibility mode, on `"#!"` — strip both sides, and succeed only when the
annotation text on the right is non-empty. -/
def split_menu (line : List Char) (uosc : Bool) : Option (List Char × List Char) :=
  if line.length = 0 then none
  else
    let r := match split_tok_go (str "#menu:") [] line with
      | some lr => some lr
      | none => if uosc then split_tok_go (str "#!") [] line else none
    match r with
    | none => none
    | some (l, rt) =>
      let l := strip l
      let rt := strip rt
      if 0 < rt.length then some (l, rt) else none

/-- The per-line field extraction of `load_menu` in `menu.c`: strip
linebreaks and leading space; skip empty lines; a line starting `#` is a
keyless command line accepted only in uosc mode; otherwise the first
whitespace-delimited token is the key and the stripped remainder is the
command field. -/
def line_fields (uosc : Bool) (line : List Char) : Option (List Char × List Char) :=
  let line := lstrip (strip_linebreaks line)
  if line.length = 0 then none
  else
    match eatstart line (str "#") with
    | some l1 => if uosc then some ([], strip l1) else none
    | none =>
      let (key, c0) := bsplit line isWS
      some (key, strip c0)

/-- One iteration of the `load_menu` line loop of `menu.c`: extract the
fields, split off the menu annotation, and hand the full command field
`cmd` together with the annotation text to `parse_menu`. -/
def process_line (uosc : Bool) (st : PState) (menu : List MTree)
    (line : List Char) : PState × List MTree :=
  match line_fields uosc line with
  | none => (st, menu)
  | some (key, cmd) =>
    match split_menu cmd uosc with
    | none => (st, menu)
    | some (_, right) => parse_menu (right.length + 1) uosc key cmd st menu right

/-- `handle_menu` of `menu.c`, at the granularity of the clicked item: the
command dispatched asynchronously is the item's `dwItemData` if any, and
nothing is dispatched otherwise. -/
def handle_item (it : PItem) : Option (List Char) := it.data

/-! ## Statement-side vocabulary

The following definitions belong to the theorem statements: they phrase the
claims' notions (absent snapshot, valid selection, checked-row count, the
specified escaping) and are compared against the behaviour of the source
definitions above. -/

/-- The claim's "relevant state snapshot is absent (null) or empty", per
provider. -/
def relevant_missing (p : Provider) (st : mp_state) : Bool :=
  match p with
  | .video_track | .audio_track | .sub_track | .sub_track2 =>
    match st.track_list with
    | none => true
    | some l => l.isEmpty
  | .chapters =>
    match st.chapter_list with
    | none => true
    | some l => l.isEmpty
  | .editions =>
    match st.edition_list with
    | none => true
    | some l => l.isEmpty
  | .audio_devices =>
    match st.audio_device_list with
    | none => true
    | some l => l.isEmpty

/-- The claim's "valid current selection" for the chapter submenu: a chapter
index inside `[0, number of chapters)`. -/
def chapter_sel_valid (st : mp_state) : Bool :=
  match st.chapter_list with
  | none => false
  | some l => 0 ≤ st.chapter && st.chapter < (l.length : Int)

/-- The claim's "valid current selection" for the edition submenu: an entry
whose id equals the current edition id. -/
def edition_sel_valid (st : mp_state) : Bool :=
  match st.edition_list with
  | none => false
  | some l => l.any (fun e => e.id = st.edition)

/-- The claim's "valid current selection" for the audio-device submenu: an
entry whose name equals the current device name. -/
def device_sel_valid (st : mp_state) : Bool :=
  match st.audio_device_list with
  | none => false
  | some l => l.any (fun e => e.name = st.audio_device)

/-- Number of check-marked rows. -/
def count_checked (rows : List Row) : Nat := (rows.filter (fun r => r.checked)).length

/-- Modelled from the spec: the escaping the specification describes —
"the displayed/escaped title contains each such character doubled" with "all
other characters unchanged in order" — i.e. every `'&'` becomes `"&&"` and
every other character is kept. -/
def escape_title_spec (title : List Char) : List Char :=
  title.flatMap (fun c => if c = '&' then ['&', '&'] else [c])

/-- No two consecutive `'&'` characters. -/
def noDoubleAmp : List Char → Bool
  | [] => true
  | [_] => true
  | a :: b :: rest => !(a = '&' && b = '&') && noDoubleAmp (b :: rest)

/-- Every inserted item either is a separator, or carries a submenu, or
would dispatch exactly the command `cmd` when activated. -/
def leaf_log_ok (cmd : List Char) (l : List PItem) : Bool :=
  l.all (fun it => it.isSep || it.hasSub || handle_item it = some cmd)

/-! ## Helper lemmas -/

theorem remove_all_rows_eq_nil (l : List Row) : remove_all_rows l = [] := by
  induction l with
  | nil => rfl
  | cons _ _ ih => simpa [remove_all_rows] using ih

theorem leaf_log_ok_append (cmd : List Char) (l1 l2 : List PItem) :
    leaf_log_ok cmd (l1 ++ l2) = (leaf_log_ok cmd l1 && leaf_log_ok cmd l2) := by
  simp [leaf_log_ok, List.all_append]

theorem append_submenu_log (st : PState) (menu : List MTree) (t : List Char) :
    (append_submenu st menu t).1.log = st.log
    ∨ (append_submenu st menu t).1.log =
        st.log ++ [{ wID := st.ctr, isSep := false, title := some t, hasSub := true
                     data := none, grayed := false }] := by
  unfold append_submenu
  cases find_submenu menu t 0 with
  | none => right; rfl
  | some p => left; rfl

theorem append_submenu_reg (st : PState) (menu : List MTree) (t : List Char) :
    (append_submenu st menu t).1.reg = st.reg := by
  unfold append_submenu
  cases find_submenu menu t 0 with
  | none => rfl
  | some p => rfl

/-- An integral rational, built directly so that it reduces in the kernel. -/
def ratInt (n : Int) : ℚ := ⟨n, 1, Nat.one_ne_zero, Nat.coprime_one_right _⟩

theorem update_track_menu_missing (st : mp_state) (ty prop : List Char) (pos : Int)
    (h : (match st.track_list with | none => true | some l => l.isEmpty) = true) :
    update_track_menu st ty prop pos [] = [] := by
  unfold update_track_menu
  cases htl : st.track_list with
  | none => rfl
  | some l =>
    rw [htl] at h
    simp only [List.isEmpty_iff] at h
    simp [h]

theorem update_chapter_menu_missing (st : mp_state)
    (h : (match st.chapter_list with | none => true | some l => l.isEmpty) = true) :
    update_chapter_menu st [] = [] := by
  unfold update_chapter_menu
  cases htl : st.chapter_list with
  | none => rfl
  | some l =>
    rw [htl] at h
    simp only [List.isEmpty_iff] at h
    simp [h]

theorem update_edition_menu_missing (st : mp_state)
    (h : (match st.edition_list with | none => true | some l => l.isEmpty) = true) :
    update_edition_menu st [] = [] := by
  unfold update_edition_menu
  cases htl : st.edition_list with
  | none => rfl
  | some l =>
    rw [htl] at h
    simp only [List.isEmpty_iff] at h
    simp [h]

theorem update_audio_device_menu_missing (st : mp_state)
    (h : (match st.audio_device_list with | none => true | some l => l.isEmpty) = true) :
    update_audio_device_menu st [] = [] := by
  unfold update_audio_device_menu
  cases htl : st.audio_device_list with
  | none => rfl
  | some l =>
    rw [htl] at h
    simp only [List.isEmpty_iff] at h
    simp [h]

theorem run_missing (p : Provider) (st : mp_state)
    (h : relevant_missing p st = true) : runProvider p st [] = [] := by
  cases p <;>
    simp only [relevant_missing] at h <;>
    simp only [runProvider, update_video_track_menu, update_audio_track_menu,
      update_sub_track_menu, update_sub_track_menu2] <;>
    first
      | exact update_track_menu_missing st _ _ _ h
      | exact update_chapter_menu_missing st h
      | exact update_edition_menu_missing st h
      | exact update_audio_device_menu_missing st h

/-! ## The claims -/

/-- C2: after two successive rebuilds with snapshots `s1` then `s2`, the
rows of a registered slot are exactly what its projector produces from `s2`
on the cleared submenu — independent of `s1` and of any earlier content. -/
theorem c2_second_rebuild_from_s2_alone (s1 s2 : mp_state) (slot : DynSlot) :
    (dyn_entry_update s2 (dyn_entry_update s1 slot)).rows
      = runProvider slot.provider s2 [] := by
  simp [dyn_entry_update, remove_all_rows_eq_nil]

/-- C3: after a rebuild pass, each slot's parent item is enabled iff its
submenu has at least one row; and with the relevant snapshot absent or
empty, the projector adds zero rows and the parent item is disabled. -/
theorem c3_enable_iff_nonempty (st : mp_state) (slots : List DynSlot) (s : DynSlot)
    (hs : s ∈ dyn_menu_update st slots) :
    (s.enabled = true ↔ s.rows ≠ [])
    ∧ (relevant_missing s.provider st = true → s.rows = [] ∧ s.enabled = false) := by
  rcases List.mem_map.mp hs with ⟨s0, _, rfl⟩
  constructor
  · simp [dyn_entry_update, decide_eq_true_iff, List.length_pos]
  · intro h
    have hr : runProvider s0.provider st [] = [] := run_missing s0.provider st h
    simp [dyn_entry_update, remove_all_rows_eq_nil, hr]

/-- C3 witness: an absent track list leaves a video-track slot rowless and
disabled. -/
theorem c3_enable_iff_nonempty_witness :
    let st : mp_state :=
      { track_list := none, vid := -1, aid := -1, sid := -1, sid2 := -1
        chapter_list := none, chapter := -1, edition_list := none, edition := -1
        audio_device_list := none, audio_device := [] }
    let s := dyn_entry_update st { provider := .video_track, rows := [], enabled := true }
    (s.enabled = true ↔ s.rows ≠ [])
    ∧ (relevant_missing s.provider st = true → s.rows = [] ∧ s.enabled = false) :=
  c3_enable_iff_nonempty _ [{ provider := .video_track, rows := [], enabled := true }] _
    (by simp [dyn_menu_update])

/-- C5: `add_dyn_menu` registers a slot exactly for the seven provider
keywords of `dyn_providers` and otherwise reports failure leaving the
registry unchanged (the submenu then stays empty and static: nothing ever
rebuilds it). -/
theorem c5_registration_iff_known_keyword (reg : List RegSlot) (id : Nat)
    (kw : List Char) :
    ((add_dyn_menu reg id kw).2 = true ↔
      kw ∈ [str "tracks/video", str "tracks/audio", str "tracks/sub",
            str "tracks/sub-secondary", str "chapters", str "editions",
            str "audio-devices"])
    ∧ ((add_dyn_menu reg id kw).2 = false → add_dyn_menu reg id kw = (reg, false)) := by
  unfold add_dyn_menu dyn_providers
  simp only [add_dyn_menu_loop]
  split_ifs with h1 h2 h3 h4 h5 h6 h7 <;> simp_all

/-- C5 witness: an unknown keyword is not registered; (for contrast, the
exact keyword `"tracks/video"` is). -/
theorem c5_registration_iff_known_keyword_witness :
    add_dyn_menu [] 1124 (str "bogus") = ([], false)
    ∧ (add_dyn_menu [] 1124 (str "tracks/video")).2 = true :=
  ⟨(c5_registration_iff_known_keyword [] 1124 (str "bogus")).2 (by decide),
   ((c5_registration_iff_known_keyword [] 1124 (str "tracks/video")).1).mpr (by decide)⟩

/-- C8: the chapter snapshot `[("Intro", 65.0)]` with current chapter 0
rebuilds into the single checked row `"Intro\t[00:01:05]"` bound to
`"seek 65.000000 absolute"`. -/
theorem c8_chapter_example :
    update_chapter_menu
      { track_list := none, vid := -1, aid := -1, sid := -1, sid2 := -1
        chapter_list := some [{ title := str "Intro", time := ratInt 65 }]
        chapter := 0, edition_list := none, edition := -1
        audio_device_list := none, audio_device := [] } []
    = [{ title := str "Intro\t[00:01:05]", checked := true, disabled := false
         data := some (str "seek 65.000000 absolute") }] := by decide

/-- C1: the configuration line `b #menu: Subtitles #@ tracks/sub` creates
the `"Subtitles"` submenu but registers nothing: `parse_menu` right-strips
the provider keyword only, so it stays `" tracks/sub"` with its leading
space and `add_dyn_menu` rejects it, while the trimmed keyword
`"tracks/sub"` would have been accepted. -/
theorem c1_keyword_keeps_leading_space :
    (process_line false { ctr := idBase, reg := [], log := [] } []
        (str "b #menu: Subtitles #@ tracks/sub")).1.reg = []
    ∧ (process_line false { ctr := idBase, reg := [], log := [] } []
        (str "b #menu: Subtitles #@ tracks/sub")).1.log
      = [{ wID := idBase, isSep := false, title := some (str "Subtitles")
           hasSub := true, data := none, grayed := false }]
    ∧ rstrip (bsplit (str " tracks/sub") (fun c => c = '#')).1 = str " tracks/sub"
    ∧ add_dyn_menu [] idBase (str " tracks/sub") = ([], false)
    ∧ (add_dyn_menu [] idBase (str "tracks/sub")).2 = true := by decide

/-- C6 counterexample: a separator does receive an item identifier.
Parsing the separator line `x -` inserts a separator whose `wID` is the
counter value `idBase`, and the counter advances, so the leaf of the next
line receives `idBase + 1` instead of `idBase`. -/
theorem c6_counterexample_separator_has_id :
    (process_line false { ctr := idBase, reg := [], log := [] } []
        (str "x - #menu: -")).1.log
      = [{ wID := idBase, isSep := true, title := none, hasSub := false
           data := none, grayed := false }]
    ∧ (process_line false { ctr := idBase, reg := [], log := [] } []
        (str "x - #menu: -")).1.ctr = idBase + 1
    ∧ (process_line false
          (process_line false { ctr := idBase, reg := [], log := [] } []
            (str "x - #menu: -")).1
          (process_line false { ctr := idBase, reg := [], log := [] } []
            (str "x - #menu: -")).2
          (str "y cmd #menu: Leaf")).1.log
      = [{ wID := idBase, isSep := true, title := none, hasSub := false
           data := none, grayed := false },
         { wID := idBase + 1, isSep := false, title := some (str "Leaf\ty")
           hasSub := false, data := some (str "cmd #menu: Leaf"), grayed := false }]
    := by decide

/-- C6 as amended: parsing a separator line appends an `MFT_SEPARATOR` item
with no title and no bound command; the item does consume the next
identifier of the shared counter, but that identifier is discarded and, the
item having no data, activating it can never dispatch a command. -/
theorem c6_amended_separator (fuel : Nat) (uosc : Bool) (key cmd : List Char)
    (st : PState) (menu : List MTree) (text name0 rest name1 comment : List Char)
    (h1 : bsplit text (fun c => c = '>') = (name0, rest))
    (h2 : bsplit name0 (fun c => c = '#') = (name1, comment))
    (hrest : rest.length = 0)
    (hname : ¬ (strip name1).length = 0)
    (hsep : is_seprarator (strip name1) uosc = true) :
    parse_menu (fuel + 1) uosc key cmd st menu text =
      ({ st with ctr := st.ctr + 1
                 log := st.log ++ [{ wID := st.ctr, isSep := true, title := none
                                     hasSub := false, data := none, grayed := false }] },
       menu ++ [.item { wID := st.ctr, isSep := true, title := none
                        hasSub := false, data := none, grayed := false }])
    ∧ handle_item { wID := st.ctr, isSep := true, title := none
                    hasSub := false, data := none, grayed := false } = none := by
  constructor
  · simp only [parse_menu, h1, h2]
    rw [if_neg hname, if_pos hrest, if_pos hsep]
    rfl
  · rfl

/-- C6 amended witness: the single-character annotation `-` at counter value
`idBase`. -/
theorem c6_amended_separator_witness :
    parse_menu 1 false (str "x") [] { ctr := idBase, reg := [], log := [] } []
        (str "-")
      = ({ ctr := idBase + 1, reg := []
           log := [{ wID := idBase, isSep := true, title := none
                     hasSub := false, data := none, grayed := false }] },
         [.item { wID := idBase, isSep := true, title := none
                  hasSub := false, data := none, grayed := false }])
    ∧ handle_item { wID := idBase, isSep := true, title := none
                    hasSub := false, data := none, grayed := false } = none :=
  c6_amended_separator 0 false (str "x") [] { ctr := idBase, reg := [], log := [] }
    [] (str "-") (str "-") [] (str "-") [] (by decide) (by decide) (by decide)
    (by decide) (by decide)

/-- C9: a nested-path annotation whose branch name carries a non-empty
trailing comment creates (or reuses) only the submenu titled with the
stripped name and stops — nothing of the rest is parsed, nothing is added
below that submenu by this line, and the registry is untouched. -/
theorem c9_branch_comment_stops_descent (fuel : Nat) (uosc : Bool)
    (key cmd : List Char) (st : PState) (menu : List MTree)
    (text name0 rest name1 comment : List Char)
    (h1 : bsplit text (fun c => c = '>') = (name0, rest))
    (h2 : bsplit name0 (fun c => c = '#') = (name1, comment))
    (hname : ¬ (strip name1).length = 0)
    (hrest : ¬ rest.length = 0)
    (hcomment : ¬ comment.length = 0) :
    parse_menu (fuel + 1) uosc key cmd st menu text =
      ((append_submenu st menu (escape_title (strip name1))).1,
       (append_submenu st menu (escape_title (strip name1))).2.1)
    ∧ (parse_menu (fuel + 1) uosc key cmd st menu text).1.reg = st.reg := by
  have hmain : parse_menu (fuel + 1) uosc key cmd st menu text =
      ((append_submenu st menu (escape_title (strip name1))).1,
       (append_submenu st menu (escape_title (strip name1))).2.1) := by
    simp only [parse_menu, h1, h2]
    rw [if_neg hname, if_neg hrest]
    rcases happ : append_submenu st menu (escape_title (strip name1)) with
      ⟨st2, menu2, i2, id2⟩
    simp [happ, hcomment]
  refine ⟨hmain, ?_⟩
  rw [hmain]
  exact append_submenu_reg st menu (escape_title (strip name1))

/-- C9 witness: the annotation `Name #x>Sub`. -/
theorem c9_branch_comment_stops_descent_witness :
    parse_menu 1 false [] [] { ctr := idBase, reg := [], log := [] } []
        (str "Name #x>Sub")
      = ((append_submenu { ctr := idBase, reg := [], log := [] } []
            (escape_title (strip (str "Name ")))).1,
         (append_submenu { ctr := idBase, reg := [], log := [] } []
            (escape_title (strip (str "Name ")))).2.1)
    ∧ (parse_menu 1 false [] [] { ctr := idBase, reg := [], log := [] } []
        (str "Name #x>Sub")).1.reg = [] :=
  c9_branch_comment_stops_descent 0 false [] [] { ctr := idBase, reg := [], log := [] }
    [] (str "Name #x>Sub") (str "Name #x") (str ">Sub") (str "Name ") (str "#x")
    (by decide) (by decide) (by decide) (by decide) (by decide)

theorem leaf_log_ok_append_submenu (cmd : List Char) (st : PState)
    (menu : List MTree) (t : List Char) (h : leaf_log_ok cmd st.log = true) :
    leaf_log_ok cmd (append_submenu st menu t).1.log = true := by
  rcases append_submenu_log st menu t with hl | hl <;>
    rw [hl] <;> simp_all [leaf_log_ok_append, leaf_log_ok]

/-- Every item `parse_menu` inserts is a separator, a submenu header, or a
leaf whose `dwItemData` is exactly the `cmd` argument. -/
theorem parse_menu_leaf_log (cmd : List Char) : ∀ (fuel : Nat) (uosc : Bool)
    (key : List Char) (st : PState) (menu : List MTree) (text : List Char),
    leaf_log_ok cmd st.log = true →
    leaf_log_ok cmd (parse_menu fuel uosc key cmd st menu text).1.log = true := by
  intro fuel
  induction fuel with
  | zero => intro uosc key st menu text h; simpa [parse_menu] using h
  | succ n ih =>
    intro uosc key st menu text h
    rcases hb1 : bsplit text (fun c => c = '>') with ⟨name0, rest⟩
    rcases hb2 : bsplit name0 (fun c => c = '#') with ⟨name1, comment⟩
    simp only [parse_menu, hb1, hb2]
    by_cases hn : (strip name1).length = 0
    · simpa [hn] using h
    · rw [if_neg hn]
      by_cases hr : rest.length = 0
      · rw [if_pos hr]
        by_cases hs : is_seprarator (strip name1) uosc = true
        · rw [if_pos hs]
          simp only [append_seprator, append_menu_item]
          simp_all [leaf_log_ok_append, leaf_log_ok]
        · rw [if_neg hs]
          cases he : eatstart comment (str "#@") with
          | some c1 =>
            simp only []
            rcases happ : append_submenu st menu (escape_title (strip name1)) with
              ⟨st2, menu2, i2, id2⟩
            have h2 : leaf_log_ok cmd st2.log = true := by
              have := leaf_log_ok_append_submenu cmd st menu
                (escape_title (strip name1)) h
              rwa [happ] at this
            by_cases hc : 0 < id2 ∧ 0 < c1.length
            · simpa [hc] using h2
            · simpa [hc] using h2
          | none =>
            simp only [append_menu_item]
            split <;> simp_all [leaf_log_ok_append, leaf_log_ok, handle_item]
      · rw [if_neg hr]
        rcases happ : append_submenu st menu (escape_title (strip name1)) with
          ⟨st2, menu2, i2, id2⟩
        have h2 : leaf_log_ok cmd st2.log = true := by
          have := leaf_log_ok_append_submenu cmd st menu
            (escape_title (strip name1)) h
          rwa [happ] at this
        by_cases hc : comment.length = 0
        · rw [if_pos hc]
          rcases hrec : parse_menu n uosc key cmd st2 (get_children menu2 i2) rest with
            ⟨st3, menu3⟩
          have h3 := ih uosc key st2 (get_children menu2 i2) rest h2
          rw [hrec] at h3
          simpa using h3
        · simpa [hc] using h2

/-- C10: every leaf item created from a configuration line binds — and
therefore dispatches on activation — the line's entire command field,
annotation marker included, as handed to `parse_menu` by the line loop. -/
theorem c10_leaf_binds_full_command_field (uosc : Bool) (st : PState)
    (menu : List MTree) (line key cmd : List Char)
    (hf : line_fields uosc line = some (key, cmd))
    (h0 : leaf_log_ok cmd st.log = true) :
    leaf_log_ok cmd (process_line uosc st menu line).1.log = true := by
  simp only [process_line, hf]
  cases hs : split_menu cmd uosc with
  | none => simpa using h0
  | some lr =>
    rcases lr with ⟨l, right⟩
    simp only []
    exact parse_menu_leaf_log cmd (right.length + 1) uosc key st menu right h0

/-- C10 witness: the line `a show-text hi #menu: Greet` whose one leaf
binds `"show-text hi #menu: Greet"`, marker and annotation included. -/
theorem c10_leaf_binds_full_command_field_witness :
    leaf_log_ok (str "show-text hi #menu: Greet")
      (process_line false { ctr := idBase, reg := [], log := [] } []
        (str "a show-text hi #menu: Greet")).1.log = true :=
  c10_leaf_binds_full_command_field false { ctr := idBase, reg := [], log := [] } []
    (str "a show-text hi #menu: Greet") (str "a") (str "show-text hi #menu: Greet")
    (by decide) (by decide)

theorem noDoubleAmp_tail (x : Char) (xs : List Char)
    (h : noDoubleAmp (x :: xs) = true) : noDoubleAmp xs = true := by
  cases xs with
  | nil => rfl
  | cons b r =>
    have h2 : (!(x = '&' && b = '&')) = true ∧ noDoubleAmp (b :: r) = true := by
      simpa [noDoubleAmp] using h
    exact h2.2

theorem noDoubleAmp_append_right (pre l : List Char)
    (h : noDoubleAmp (pre ++ l) = true) : noDoubleAmp l = true := by
  induction pre with
  | nil => simpa using h
  | cons x xs ih => exact ih (noDoubleAmp_tail x (xs ++ l) h)

theorem noDoubleAmp_dropWhile (p : Char → Bool) (l : List Char)
    (h : noDoubleAmp l = true) : noDoubleAmp (l.dropWhile p) = true := by
  rcases (List.dropWhile_suffix p (l := l)) with ⟨pre, hpre⟩
  exact noDoubleAmp_append_right pre _ (by rwa [hpre])

theorem head_dropWhile_not (p : Char → Bool) : ∀ (l : List Char) (x : Char),
    (l.dropWhile p).head? = some x → p x = false := by
  intro l
  induction l with
  | nil => intro x hx; simp at hx
  | cons a as ih =>
    intro x hx
    by_cases hpa : p a = true
    · rw [List.dropWhile_cons_of_pos hpa] at hx
      exact ih x hx
    · rw [List.dropWhile_cons_of_neg hpa] at hx
      simp at hx
      rw [← hx]
      exact Bool.eq_false_iff.mpr hpa

theorem escape_title_spec_append_free (l r : List Char) (h : '&' ∉ l) :
    escape_title_spec (l ++ r) = l ++ escape_title_spec r := by
  induction l with
  | nil => rfl
  | cons x xs ih =>
    have hx : ¬x = '&' := fun he => h (he ▸ List.mem_cons_self x xs)
    simp only [List.cons_append, escape_title_spec, List.flatMap_cons, if_neg hx]
    have := ih (fun hm => h (List.mem_cons_of_mem x hm))
    simp only [escape_title_spec] at this
    simp [this]

theorem escAux_nil (fuel : Nat) (l : List Char) : escAux fuel l [] = l := by
  cases fuel <;> simp [escAux]

/-- The `escape_title` loop against the specified escaping: when the
remainder coming out of `bstr_split` is empty or starts with a single
(non-doubled) `'&'` and carries no `"&&"`, the loop emits the remainder with
each `'&'` doubled, appended to the piece already split off. -/
theorem escAux_spec : ∀ (fuel : Nat) (l r : List Char),
    r.length ≤ fuel → noDoubleAmp r = true → (r = [] ∨ r.head? = some '&') →
    escAux fuel l r = l ++ escape_title_spec r := by
  intro fuel
  induction fuel with
  | zero =>
    intro l r hlen _ _
    have : r = [] := List.length_eq_zero.mp (Nat.le_zero.mp hlen)
    subst this
    simp [escAux_nil, escape_title_spec]
  | succ n ih =>
    intro l r hlen hnd hhead
    cases r with
    | nil => simp [escAux_nil, escape_title_spec]
    | cons c r1 =>
      rcases hhead with h | h
      · exact absurd h (List.cons_ne_nil c r1)
      · have hc : c = '&' := by simpa using h
        subst hc
        have hr1 : r1.head? ≠ some '&' := by
          cases r1 with
          | nil => simp
          | cons b r2 =>
            intro hb
            simp only [List.head?_cons, Option.some.injEq] at hb
            subst hb
            simp [noDoubleAmp] at hnd
        have hdrop : r1.dropWhile (fun c => c = '&') = r1 := by
          cases r1 with
          | nil => rfl
          | cons b r2 =>
            have hb : ¬(fun c => decide (c = '&')) b = true := by
              simp only [List.head?_cons, ne_eq, Option.some.injEq] at hr1
              simp [hr1]
            exact List.dropWhile_cons_of_neg hb
        have hnd1 : noDoubleAmp r1 = true := noDoubleAmp_tail _ _ hnd
        set q : Char → Bool := fun c => !decide (c = '&') with hq
        have hbs : bsplit ('&' :: r1) (fun c => c = '&')
            = (r1.takeWhile q, r1.dropWhile q) := by
          simp only [bsplit]
          rw [List.dropWhile_cons_of_pos (by simp), hdrop]
        have hsplit : r1.takeWhile q ++ r1.dropWhile q = r1 :=
          List.takeWhile_append_dropWhile q r1
        have hlen2 : (r1.dropWhile q).length ≤ n := by
          have h1 : (r1.takeWhile q).length + (r1.dropWhile q).length = r1.length := by
            rw [← List.length_append, hsplit]
          have h2 : r1.length ≤ n := by
            simp only [List.length_cons] at hlen
            omega
          omega
        have hnd2 : noDoubleAmp (r1.dropWhile q) = true :=
          noDoubleAmp_dropWhile q r1 hnd1
        have hhead2 : r1.dropWhile q = [] ∨ (r1.dropWhile q).head? = some '&' := by
          cases hd : (r1.dropWhile q).head? with
          | none => left; exact List.head?_eq_none_iff.mp hd
          | some x =>
            right
            have hx := head_dropWhile_not q r1 x hd
            have hx2 : x = '&' := by simpa [hq] using hx
            rw [hx2]
        have hfree : '&' ∉ r1.takeWhile q := by
          intro hm
          have := List.mem_takeWhile_imp hm
          simp [hq] at this
        simp only [escAux, List.length_cons, hbs]
        rw [if_neg (by omega : ¬r1.length + 1 = 0)]
        rw [ih (r1.takeWhile q) (r1.dropWhile q) hlen2 hnd2 hhead2]
        have hamp : str "&&" = ['&', '&'] := rfl
        have hspec : escape_title_spec ('&' :: r1) = ['&', '&'] ++ escape_title_spec r1 := by
          simp [escape_title_spec]
        rw [← escape_title_spec_append_free (r1.takeWhile q) _ hfree, hsplit,
          hspec, hamp]
        simp [List.append_assoc]

theorem drop_amp_head (l : List Char) :
    l.dropWhile (fun c => !decide (c = '&')) = []
    ∨ (l.dropWhile (fun c => !decide (c = '&'))).head? = some '&' := by
  cases hd : (l.dropWhile (fun c => !decide (c = '&'))).head? with
  | none => left; exact List.head?_eq_none_iff.mp hd
  | some x =>
    right
    have hx := head_dropWhile_not (fun c => !decide (c = '&')) l x hd
    have hx2 : x = '&' := by simpa using hx
    rw [hx2]

/-- C7 counterexample: the escaping does not double every literal `'&'`.
A leading `'&'` is dropped (`"&a"` escapes to `"a"`, not `"&&a"`) and a
`"&&"` run collapses to one doubled pair (`"a&&b"` escapes to `"a&&b"`,
not `"a&&&&b"`), because `bstr_split` skips leading separator characters. -/
theorem c7_counterexample_amp_runs :
    escape_title (str "&a") = str "a"
    ∧ escape_title (str "&a") ≠ escape_title_spec (str "&a")
    ∧ escape_title (str "a&&b") = str "a&&b"
    ∧ escape_title (str "a&&b") ≠ escape_title_spec (str "a&&b") := by decide

/-- C7 as amended: for every title that does not start with `'&'` and has no
two consecutive `'&'` characters, the escaped title doubles each `'&'` and
keeps every other character unchanged in order; titles with a leading or
doubled `'&'` lose those characters instead. -/
theorem c7_amended_escape_doubles_isolated_amp (t : List Char)
    (h1 : t.head? ≠ some '&') (h2 : noDoubleAmp t = true) :
    escape_title t = escape_title_spec t := by
  set q : Char → Bool := fun c => !decide (c = '&') with hq
  have hdrop : t.dropWhile (fun c => c = '&') = t := by
    cases t with
    | nil => rfl
    | cons c r =>
      have hc : ¬(fun c => decide (c = '&')) c = true := by
        simp only [List.head?_cons, ne_eq, Option.some.injEq] at h1
        simp [h1]
      exact List.dropWhile_cons_of_neg hc
  have hbs : bsplit t (fun c => c = '&') = (t.takeWhile q, t.dropWhile q) := by
    simp only [bsplit]
    rw [hdrop]
  have hsplit : t.takeWhile q ++ t.dropWhile q = t :=
    List.takeWhile_append_dropWhile q t
  have hlen : (t.dropWhile q).length ≤ t.length := by
    have h1l : (t.takeWhile q).length + (t.dropWhile q).length = t.length := by
      rw [← List.length_append, hsplit]
    omega
  have hnd2 : noDoubleAmp (t.dropWhile q) = true := noDoubleAmp_dropWhile q t h2
  have hhead2 := drop_amp_head t
  have hfree : '&' ∉ t.takeWhile q := by
    intro hm
    have := List.mem_takeWhile_imp hm
    simp [hq] at this
  have : escape_title t = escAux t.length (t.takeWhile q) (t.dropWhile q) := by
    simp only [escape_title, hbs]
  rw [this, escAux_spec t.length _ _ hlen hnd2 (by simpa [hq] using hhead2),
    ← escape_title_spec_append_free (t.takeWhile q) _ hfree, hsplit]

/-- C7 amended witness: `"a&b"` (an isolated interior `'&'`) escapes to
`"a&&b"`, the value the specified escaping gives. -/
theorem c7_amended_escape_doubles_isolated_amp_witness :
    escape_title (str "a&b") = escape_title_spec (str "a&b")
    ∧ escape_title_spec (str "a&b") = str "a&&b" :=
  ⟨c7_amended_escape_doubles_isolated_amp (str "a&b") (by decide) (by decide),
   by decide⟩

theorem count_checked_nil : count_checked [] = 0 := rfl

theorem count_checked_cons (r : Row) (rs : List Row) :
    count_checked (r :: rs)
      = (if r.checked then 1 else 0) + count_checked rs := by
  simp only [count_checked, List.filter_cons]
  split <;> (simp [List.length_cons]; try omega)

theorem count_checked_all_false (rows : List Row)
    (h : ∀ r ∈ rows, r.checked = false) : count_checked rows = 0 := by
  induction rows with
  | nil => rfl
  | cons r rs ih =>
    rw [count_checked_cons, h r (List.mem_cons_self r rs),
      ih (fun x hx => h x (List.mem_cons_of_mem r hx))]
    simp

theorem count_check_radio_aux (first last pos : Nat) : ∀ (rows : List Row) (i : Nat),
    (∀ r ∈ rows, r.checked = false) →
    count_checked (check_radio_aux first last pos i rows)
      = if i ≤ pos ∧ pos < i + rows.length then 1 else 0 := by
  intro rows
  induction rows with
  | nil =>
    intro i h
    simp only [check_radio_aux, count_checked_nil, List.length_nil]
    rw [if_neg (by omega : ¬(i ≤ pos ∧ pos < i + 0))]
  | cons r rs ih =>
    intro i h
    have hr : r.checked = false := h r (List.mem_cons_self r rs)
    have hrs : ∀ x ∈ rs, x.checked = false :=
      fun x hx => h x (List.mem_cons_of_mem r hx)
    simp only [check_radio_aux]
    by_cases hip : i = pos
    · rw [if_pos hip, count_checked_cons, ih (i + 1) hrs]
      simp only [List.length_cons]
      rw [if_neg (by omega : ¬(i + 1 ≤ pos ∧ pos < i + 1 + rs.length)),
        if_pos (by omega : i ≤ pos ∧ pos < i + (rs.length + 1))]
      simp
    · rw [if_neg hip, count_checked_cons, ih (i + 1) hrs]
      have hchk : (if first ≤ i && i ≤ last then { r with checked := false } else r).checked
          = false := by
        split
        · rfl
        · exact hr
      rw [hchk]
      simp only [List.length_cons]
      split_ifs <;> first | rfl | omega | simp_all

theorem checked_check_radio_aux (first last pos : Nat) : ∀ (rows : List Row) (i j : Nat)
    (r : Row), (∀ x ∈ rows, x.checked = false) →
    (check_radio_aux first last pos i rows)[j]? = some r →
    (r.checked = true ↔ i + j = pos) := by
  intro rows
  induction rows with
  | nil =>
    intro i j r _ hj
    simp [check_radio_aux] at hj
  | cons x xs ih =>
    intro i j r h hj
    have hx : x.checked = false := h x (List.mem_cons_self x xs)
    have hxs : ∀ y ∈ xs, y.checked = false :=
      fun y hy => h y (List.mem_cons_of_mem x hy)
    cases j with
    | zero =>
      simp only [check_radio_aux, List.getElem?_cons_zero, Option.some.injEq] at hj
      subst hj
      by_cases hip : i = pos
      · simp [hip]
      · rw [if_neg hip]
        constructor
        · intro hc
          exfalso
          revert hc
          split
          · simp
          · simp [hx]
        · intro hc
          omega
    | succ j1 =>
      simp only [check_radio_aux, List.getElem?_cons_succ] at hj
      have := ih (i + 1) j1 r hxs hj
      rw [this]
      omega

theorem last_match_aux_none {α : Type} (p : α → Bool) : ∀ (es : List α) (i : Nat)
    (acc : Int), es.any p = false → last_match_aux p i acc es = acc := by
  intro es
  induction es with
  | nil => intro i acc _; rfl
  | cons e es1 ih =>
    intro i acc h
    simp only [List.any_cons, Bool.or_eq_false_iff] at h
    simp only [last_match_aux, h.1, if_neg (by simp [h.1] : ¬p e = true)]
    exact ih (i + 1) acc h.2

theorem last_match_aux_found {α : Type} (p : α → Bool) : ∀ (es : List α) (i : Nat)
    (acc : Int), es.any p = true →
    ∃ (k : Nat) (e : α), es[k]? = some e ∧ p e = true
      ∧ last_match_aux p i acc es = ((i + k : Nat) : Int) := by
  intro es
  induction es with
  | nil => intro i acc h; simp at h
  | cons e es1 ih =>
    intro i acc h
    cases hae : es1.any p with
    | true =>
      obtain ⟨k, e1, hk, hp, hlm⟩ := ih (i + 1) (if p e then (i : Int) else acc) hae
      refine ⟨k + 1, e1, by simpa using hk, hp, ?_⟩
      simp only [last_match_aux]
      rw [hlm]
      congr 1
      omega
    | false =>
      have hpe : p e = true := by
        simp only [List.any_cons, hae, Bool.or_false] at h
        exact h
      refine ⟨0, e, by simp, hpe, ?_⟩
      simp only [last_match_aux, if_pos hpe]
      rw [last_match_aux_none p es1 (i + 1) (i : Int) hae]
      simp

theorem map_rows_unchecked {α : Type} (f : α → Row) (l : List α)
    (hf : ∀ e, (f e).checked = false) : ∀ r ∈ l.map f, r.checked = false := by
  intro r hr
  rcases List.mem_map.mp hr with ⟨e, _, rfl⟩
  exact hf e

theorem radio_lastmatch_count {α : Type} (p : α → Bool) (l : List α) (f : α → Row)
    (hf : ∀ e, (f e).checked = false) :
    count_checked (if 0 ≤ last_match p l
        then check_radio (l.map f) 0 l.length (last_match p l).toNat
        else l.map f)
      = if l.any p then 1 else 0 := by
  have hunch := map_rows_unchecked f l hf
  cases hany : l.any p with
  | false =>
    rw [show last_match p l = -1 from last_match_aux_none p l 0 (-1) hany]
    rw [if_neg (by norm_num : ¬(0 : Int) ≤ -1)]
    simp [count_checked_all_false _ hunch]
  | true =>
    obtain ⟨k, e, hk, hp, hlm⟩ := last_match_aux_found p l 0 (-1) hany
    have hlm2 : last_match p l = (k : Int) := by simpa using hlm
    have hk_lt : k < l.length := by
      by_contra hlt
      rw [List.getElem?_eq_none (Nat.le_of_not_lt hlt)] at hk
      exact Option.noConfusion hk
    rw [hlm2, if_pos (Int.ofNat_nonneg k)]
    simp only [Int.toNat_ofNat]
    unfold check_radio
    rw [count_check_radio_aux 0 l.length k (l.map f) 0 hunch]
    rw [if_pos ⟨Nat.zero_le k, by simpa [List.length_map] using hk_lt⟩]
    simp

theorem radio_lastmatch_pos {α : Type} (p : α → Bool) (l : List α) (f : α → Row)
    (hf : ∀ e, (f e).checked = false) (j : Nat) (r : Row)
    (hj : (if 0 ≤ last_match p l
        then check_radio (l.map f) 0 l.length (last_match p l).toNat
        else l.map f)[j]? = some r)
    (hc : r.checked = true) :
    ∃ e, l[j]? = some e ∧ p e = true := by
  have hunch := map_rows_unchecked f l hf
  cases hany : l.any p with
  | false =>
    rw [show last_match p l = -1 from last_match_aux_none p l 0 (-1) hany] at hj
    rw [if_neg (by norm_num : ¬(0 : Int) ≤ -1)] at hj
    rw [List.getElem?_map] at hj
    cases hje : l[j]? with
    | none => rw [hje] at hj; exact Option.noConfusion hj
    | some e =>
      rw [hje] at hj
      have hj2 : f e = r := by simpa using hj
      rw [← hj2] at hc
      rw [hf e] at hc
      exact Bool.noConfusion hc
  | true =>
    obtain ⟨k, e, hk, hp, hlm⟩ := last_match_aux_found p l 0 (-1) hany
    have hlm2 : last_match p l = (k : Int) := by simpa using hlm
    rw [hlm2, if_pos (Int.ofNat_nonneg k)] at hj
    simp only [Int.toNat_ofNat] at hj
    unfold check_radio at hj
    have hiff := checked_check_radio_aux 0 l.length k (l.map f) 0 j r hunch hj
    have hjk : j = k := by
      have := hiff.mp hc
      omega
    subst hjk
    exact ⟨e, hk, hp⟩

theorem update_chapter_menu_eq_none (st : mp_state) (rows : List Row)
    (h : st.chapter_list = none) : update_chapter_menu st rows = rows := by
  unfold update_chapter_menu
  rw [h]

theorem update_chapter_menu_eq_some (st : mp_state) (l : List mp_chapter_item)
    (rows : List Row) (h : st.chapter_list = some l) :
    update_chapter_menu st rows =
      if l.length = 0 then rows
      else if 0 ≤ st.chapter
        then check_radio (rows ++ l.map chapter_row) 0 l.length st.chapter.toNat
        else rows ++ l.map chapter_row := by
  unfold update_chapter_menu
  rw [h]

theorem chapter_sel_valid_eq_none (st : mp_state) (h : st.chapter_list = none) :
    chapter_sel_valid st = false := by
  unfold chapter_sel_valid
  rw [h]

theorem chapter_sel_valid_eq_some (st : mp_state) (l : List mp_chapter_item)
    (h : st.chapter_list = some l) :
    chapter_sel_valid st = (0 ≤ st.chapter && st.chapter < (l.length : Int)) := by
  unfold chapter_sel_valid
  rw [h]

theorem update_edition_menu_eq_none (st : mp_state) (rows : List Row)
    (h : st.edition_list = none) : update_edition_menu st rows = rows := by
  unfold update_edition_menu
  rw [h]

theorem update_edition_menu_eq_some (st : mp_state) (l : List mp_edition_item)
    (rows : List Row) (h : st.edition_list = some l) :
    update_edition_menu st rows =
      if l.length = 0 then rows
      else if 0 ≤ last_match (fun e => e.id = st.edition) l
        then check_radio (rows ++ l.map edition_row) 0 l.length
          (last_match (fun e => e.id = st.edition) l).toNat
        else rows ++ l.map edition_row := by
  unfold update_edition_menu
  rw [h]

theorem edition_sel_valid_eq_none (st : mp_state) (h : st.edition_list = none) :
    edition_sel_valid st = false := by
  unfold edition_sel_valid
  rw [h]

theorem edition_sel_valid_eq_some (st : mp_state) (l : List mp_edition_item)
    (h : st.edition_list = some l) :
    edition_sel_valid st = l.any (fun e => e.id = st.edition) := by
  unfold edition_sel_valid
  rw [h]

theorem update_audio_device_menu_eq_none (st : mp_state) (rows : List Row)
    (h : st.audio_device_list = none) : update_audio_device_menu st rows = rows := by
  unfold update_audio_device_menu
  rw [h]

theorem update_audio_device_menu_eq_some (st : mp_state) (l : List mp_audio_device)
    (rows : List Row) (h : st.audio_device_list = some l) :
    update_audio_device_menu st rows =
      if l.length = 0 then rows
      else if 0 ≤ last_match (fun e => e.name = st.audio_device) l
        then check_radio (rows ++ l.map audio_device_row) 0 l.length
          (last_match (fun e => e.name = st.audio_device) l).toNat
        else rows ++ l.map audio_device_row := by
  unfold update_audio_device_menu
  rw [h]

theorem device_sel_valid_eq_none (st : mp_state) (h : st.audio_device_list = none) :
    device_sel_valid st = false := by
  unfold device_sel_valid
  rw [h]

theorem device_sel_valid_eq_some (st : mp_state) (l : List mp_audio_device)
    (h : st.audio_device_list = some l) :
    device_sel_valid st = l.any (fun e => e.name = st.audio_device) := by
  unfold device_sel_valid
  rw [h]

theorem chapter_count (st : mp_state) :
    count_checked (update_chapter_menu st [])
      = if chapter_sel_valid st then 1 else 0 := by
  cases hcl : st.chapter_list with
  | none =>
    rw [update_chapter_menu_eq_none st [] hcl, chapter_sel_valid_eq_none st hcl]
    simp [count_checked_nil]
  | some l =>
    rw [update_chapter_menu_eq_some st l [] hcl, chapter_sel_valid_eq_some st l hcl]
    by_cases hl : l.length = 0
    · rw [if_pos hl, count_checked_nil, if_neg]
      intro hcond
      simp only [Bool.and_eq_true, decide_eq_true_eq] at hcond
      omega
    · rw [if_neg hl]
      simp only [List.nil_append]
      have hunch := map_rows_unchecked chapter_row l (fun _ => rfl)
      by_cases hch : 0 ≤ st.chapter
      · rw [if_pos hch]
        unfold check_radio
        rw [count_check_radio_aux 0 l.length st.chapter.toNat _ 0 hunch]
        refine if_congr ?_ rfl rfl
        simp only [List.length_map, Bool.and_eq_true, decide_eq_true_eq]
        omega
      · rw [if_neg hch, count_checked_all_false _ hunch, if_neg]
        intro hcond
        simp only [Bool.and_eq_true, decide_eq_true_eq] at hcond
        omega

theorem chapter_pos (st : mp_state) : ∀ (j : Nat) (r : Row),
    (update_chapter_menu st [])[j]? = some r → r.checked = true →
    (j : Int) = st.chapter := by
  intro j r hj hc
  cases hcl : st.chapter_list with
  | none =>
    rw [update_chapter_menu_eq_none st [] hcl] at hj
    exact Option.noConfusion hj
  | some l =>
    rw [update_chapter_menu_eq_some st l [] hcl] at hj
    by_cases hl : l.length = 0
    · rw [if_pos hl] at hj
      exact Option.noConfusion hj
    · rw [if_neg hl] at hj
      simp only [List.nil_append] at hj
      have hunch := map_rows_unchecked chapter_row l (fun _ => rfl)
      by_cases hch : 0 ≤ st.chapter
      · rw [if_pos hch] at hj
        unfold check_radio at hj
        have hiff := checked_check_radio_aux 0 l.length st.chapter.toNat
          (l.map chapter_row) 0 j r hunch hj
        have := hiff.mp hc
        omega
      · rw [if_neg hch] at hj
        rw [List.getElem?_map] at hj
        cases hje : l[j]? with
        | none => rw [hje] at hj; exact Option.noConfusion hj
        | some e =>
          rw [hje] at hj
          have hj2 : chapter_row e = r := by simpa using hj
          rw [← hj2] at hc
          exact Bool.noConfusion hc

theorem edition_count (st : mp_state) :
    count_checked (update_edition_menu st [])
      = if edition_sel_valid st then 1 else 0 := by
  cases hcl : st.edition_list with
  | none =>
    rw [update_edition_menu_eq_none st [] hcl, edition_sel_valid_eq_none st hcl]
    simp [count_checked_nil]
  | some l =>
    rw [update_edition_menu_eq_some st l [] hcl, edition_sel_valid_eq_some st l hcl]
    by_cases hl : l.length = 0
    · have hnil : l = [] := List.length_eq_zero.mp hl
      subst hnil
      simp [count_checked_nil]
    · rw [if_neg hl]
      simp only [List.nil_append]
      exact radio_lastmatch_count (fun e => e.id = st.edition) l edition_row
        (fun _ => rfl)

theorem edition_pos (st : mp_state) : ∀ (j : Nat) (r : Row),
    (update_edition_menu st [])[j]? = some r → r.checked = true →
    ∃ l e, st.edition_list = some l ∧ l[j]? = some e ∧ e.id = st.edition := by
  intro j r hj hc
  cases hcl : st.edition_list with
  | none =>
    rw [update_edition_menu_eq_none st [] hcl] at hj
    exact Option.noConfusion hj
  | some l =>
    rw [update_edition_menu_eq_some st l [] hcl] at hj
    by_cases hl : l.length = 0
    · rw [if_pos hl] at hj
      exact Option.noConfusion hj
    · rw [if_neg hl] at hj
      simp only [List.nil_append] at hj
      obtain ⟨e, hke, hpe⟩ := radio_lastmatch_pos (fun e => e.id = st.edition) l
        edition_row (fun _ => rfl) j r hj hc
      exact ⟨l, e, rfl, hke, of_decide_eq_true hpe⟩

theorem device_count (st : mp_state) :
    count_checked (update_audio_device_menu st [])
      = if device_sel_valid st then 1 else 0 := by
  cases hcl : st.audio_device_list with
  | none =>
    rw [update_audio_device_menu_eq_none st [] hcl, device_sel_valid_eq_none st hcl]
    simp [count_checked_nil]
  | some l =>
    rw [update_audio_device_menu_eq_some st l [] hcl,
      device_sel_valid_eq_some st l hcl]
    by_cases hl : l.length = 0
    · have hnil : l = [] := List.length_eq_zero.mp hl
      subst hnil
      simp [count_checked_nil]
    · rw [if_neg hl]
      simp only [List.nil_append]
      exact radio_lastmatch_count (fun e => e.name = st.audio_device) l
        audio_device_row (fun _ => rfl)

theorem device_pos (st : mp_state) : ∀ (j : Nat) (r : Row),
    (update_audio_device_menu st [])[j]? = some r → r.checked = true →
    ∃ l e, st.audio_device_list = some l ∧ l[j]? = some e
      ∧ e.name = st.audio_device := by
  intro j r hj hc
  cases hcl : st.audio_device_list with
  | none =>
    rw [update_audio_device_menu_eq_none st [] hcl] at hj
    exact Option.noConfusion hj
  | some l =>
    rw [update_audio_device_menu_eq_some st l [] hcl] at hj
    by_cases hl : l.length = 0
    · rw [if_pos hl] at hj
      exact Option.noConfusion hj
    · rw [if_neg hl] at hj
      simp only [List.nil_append] at hj
      obtain ⟨e, hke, hpe⟩ := radio_lastmatch_pos (fun e => e.name = st.audio_device)
        l audio_device_row (fun _ => rfl) j r hj hc
      exact ⟨l, e, rfl, hke, of_decide_eq_true hpe⟩

/-- C4: for every rebuild of a chapter, edition or audio-device submenu,
exactly one row is check-marked when a valid current selection exists and
zero otherwise; and a checked row can only sit at the matching position
(the current chapter index, resp. a position whose entry carries the
current edition id or device name). -/
theorem c4_radio_marks_exactly_one (st : mp_state) :
    (count_checked (update_chapter_menu st [])
        = if chapter_sel_valid st then 1 else 0)
    ∧ (count_checked (update_edition_menu st [])
        = if edition_sel_valid st then 1 else 0)
    ∧ (count_checked (update_audio_device_menu st [])
        = if device_sel_valid st then 1 else 0)
    ∧ (∀ (j : Nat) (r : Row), (update_chapter_menu st [])[j]? = some r →
        r.checked = true → (j : Int) = st.chapter)
    ∧ (∀ (j : Nat) (r : Row), (update_edition_menu st [])[j]? = some r →
        r.checked = true →
        ∃ l e, st.edition_list = some l ∧ l[j]? = some e ∧ e.id = st.edition)
    ∧ (∀ (j : Nat) (r : Row), (update_audio_device_menu st [])[j]? = some r →
        r.checked = true →
        ∃ l e, st.audio_device_list = some l ∧ l[j]? = some e
          ∧ e.name = st.audio_device) :=
  ⟨chapter_count st, edition_count st, device_count st,
   chapter_pos st, edition_pos st, device_pos st⟩

/-- A concrete state exercising the three radio-marked submenus. -/
def stW : mp_state :=
  { track_list := none, vid := -1, aid := -1, sid := -1, sid2 := -1
    chapter_list := some [{ title := str "Intro", time := ratInt 65 }]
    chapter := 0
    edition_list := some [{ id := 7, title := str "Main" }]
    edition := 7
    audio_device_list := some [{ name := str "auto", desc := str "Autoselect" }]
    audio_device := str "auto" }

/-- C4 witness: with one chapter (current), one edition (current) and one
device (current), each submenu has exactly one checked row at the matching
position. -/
theorem c4_radio_marks_exactly_one_witness :
    count_checked (update_chapter_menu stW []) = 1
    ∧ ((0 : Nat) : Int) = stW.chapter
    ∧ (∃ l e, stW.edition_list = some l ∧ l[0]? = some e ∧ e.id = stW.edition)
    ∧ (∃ l e, stW.audio_device_list = some l ∧ l[0]? = some e
        ∧ e.name = stW.audio_device) :=
  ⟨((c4_radio_marks_exactly_one stW).1).trans (by decide),
   (c4_radio_marks_exactly_one stW).2.2.2.1 0
     { title := str "Intro\t[00:01:05]", checked := true, disabled := false
       data := some (str "seek 65.000000 absolute") } (by decide) rfl,
   (c4_radio_marks_exactly_one stW).2.2.2.2.1 0
     { title := str "Main", checked := true, disabled := false
       data := some (str "set edition 7") } (by decide) rfl,
   (c4_radio_marks_exactly_one stW).2.2.2.2.2 0
     { title := str "Autoselect", checked := true, disabled := false
       data := some (str "set audio-device auto") } (by decide) rfl⟩

end Menu
